import Mathlib

/-!
Verification development for the sentinel-backend progress allocation and
reconciliation engine (Django app `avance` plus the `cronograma` critical-path
utility).  Dates are modelled as integers (day numbers), decimal quantities as
rationals, database tables as lists of records, and each HTTP endpoint's
`perform_*` handler as a pure state transformer translated from the source.
-/

/-- `catalogo.models.Concept`: the billable work item (the `Src` prefix keeps
it apart from Mathlib's `Concept`).  `constructionId` is the construction
reached through `concept.catalog.construction`. -/
structure SrcConcept where
  id : Nat
  quantity : ℚ
  unitPrice : ℚ
  isActive : Bool
  workItemId : Nat
  catalogId : Nat
  constructionId : Nat
deriving DecidableEq

/-- `cronograma.models.Activity` together with its `activity_concepts`
association rows (each row joined to its `Concept`). -/
structure SrcActivity where
  id : Nat
  startDate : ℤ
  endDate : ℤ
  concepts : List SrcConcept
deriving DecidableEq

/-- `cronograma.models.Schedule` with its activities. -/
structure SrcSchedule where
  id : Nat
  name : String
  isActive : Bool
  constructionId : Nat
  activities : List SrcActivity
deriving DecidableEq

/-- An `avance.models.EstimationDetail` row joined to its concept, as read by
the planned-estimation fallback of `PhysicalProgressSummaryView.get`. -/
structure SrcEstDetailRow where
  concept : SrcConcept
  volume : ℚ
deriving DecidableEq

/-- An `avance.models.Estimation` used as a planned-estimation fallback
source (name, `is_planned`, period, construction, details). -/
structure PlannedEstimation where
  name : String
  isPlanned : Bool
  periodStart : ℤ
  periodEnd : ℤ
  constructionId : Option Nat
  details : List SrcEstDetailRow
deriving DecidableEq

/-- A Python dict keyed by concept id in insertion order:
`d[k] = d.get(k, 0) + v` keeps the key's position when present and appends
the key otherwise, exactly as the `programmed_volumes` dict is built. -/
def dictAdd : List (Nat × ℚ) → Nat → ℚ → List (Nat × ℚ)
  | [], k, v => [(k, v)]
  | (k', v') :: rest, k, v =>
      if k' = k then (k', v' + v) :: rest else (k', v') :: dictAdd rest k v

/-- Reading a key from the dict, with 0 for an absent key
(`programmed_volumes.get(concept.id, 0)`). -/
def dictGet : List (Nat × ℚ) → Nat → ℚ
  | [], _ => 0
  | (k', v') :: rest, k => if k' = k then v' else dictGet rest k

/-- An optional query parameter matching an id: absent parameters filter
nothing (`if param: queryset = queryset.filter(...)`). -/
def optMatch : Option Nat → Nat → Bool
  | none, _ => true
  | some x, v => x == v

/-- `concepts_query`: active concepts filtered by the `concept`, `work_item`
and `catalog` query parameters (views.py lines 217-224). -/
def conceptsQuery (concepts : List SrcConcept) (cParam wiParam catParam : Option Nat) :
    List SrcConcept :=
  (concepts.filter (fun c => c.isActive)).filter
    (fun c => optMatch cParam c.id && optMatch wiParam c.workItemId &&
      optMatch catParam c.catalogId)

/-- The proration fraction of an activity inside the period (views.py lines
245-253): `days_in_period / total_activity_days`, with 0 when
`total_activity_days ≤ 0`. -/
def fractionInPeriod (a : SrcActivity) (ps pe : ℤ) : ℚ :=
  if 0 < a.endDate - a.startDate + 1 then
    ((min a.endDate pe - max a.startDate ps + 1 : ℤ) : ℚ) /
      ((a.endDate - a.startDate + 1 : ℤ) : ℚ)
  else 0

/-- The `Activity.objects.filter(start_date__lte=period_end,
end_date__gte=period_start)` query: activities intersecting the period. -/
def overlapFilter (ps pe : ℤ) (acts : List SrcActivity) : List SrcActivity :=
  acts.filter (fun a => decide (a.startDate ≤ pe) && decide (ps ≤ a.endDate))

/-- The `concepts_query.filter(id=ac.concept.id).exists()` membership test. -/
def inQuery (cq : List SrcConcept) (cid : Nat) : Bool :=
  cq.any (fun x => x.id == cid)

/-- The accumulation loop of the Schedule Allocator (views.py lines 243-263):
for each activity, for each associated concept that is in `concepts_query`,
add `concept.quantity * fraction` under the concept's id. -/
def accumulateActivities (cq : List SrcConcept) (ps pe : ℤ)
    (m0 : List (Nat × ℚ)) (acts : List SrcActivity) : List (Nat × ℚ) :=
  acts.foldl
    (fun m a =>
      a.concepts.foldl
        (fun m c =>
          if inQuery cq c.id then
            dictAdd m c.id (c.quantity * fractionInPeriod a ps pe)
          else m)
        m)
    m0

/-- The per-activity contribution of one intersecting activity to one
concept id, as the claim describes it. -/
def activityContribution (cq : List SrcConcept) (ps pe : ℤ) (cid : Nat)
    (a : SrcActivity) : ℚ :=
  ((a.concepts.filter (fun c => inQuery cq c.id && c.id == cid)).map
    (fun c => c.quantity * fractionInPeriod a ps pe)).sum

theorem dictGet_dictAdd (m : List (Nat × ℚ)) (k : Nat) (v : ℚ) (k' : Nat) :
    dictGet (dictAdd m k v) k' = dictGet m k' + (if k' = k then v else 0) := by
  induction m with
  | nil =>
      by_cases h : k = k'
      · subst h; simp [dictAdd, dictGet]
      · have h' : ¬k' = k := fun hh => h hh.symm
        simp [dictAdd, dictGet, h, h']
  | cons p rest ih =>
      obtain ⟨k0, v0⟩ := p
      by_cases h0 : k0 = k
      · subst h0
        by_cases h1 : k0 = k'
        · subst h1; simp [dictAdd, dictGet, add_comm]
        · have h1' : ¬k' = k0 := fun hh => h1 hh.symm
          simp [dictAdd, dictGet, h1, h1']
      · by_cases h1 : k0 = k'
        · subst h1
          have h2 : ¬k = k0 := fun hh => h0 hh.symm
          simp [dictAdd, dictGet, h0, h2]
        · simp [dictAdd, dictGet, h0, h1, ih]

theorem dictGet_inner_fold (cq : List SrcConcept) (g : SrcConcept → ℚ) (cid : Nat)
    (cs : List SrcConcept) (m : List (Nat × ℚ)) :
    dictGet (cs.foldl
        (fun m c => if inQuery cq c.id then dictAdd m c.id (g c) else m)
        m) cid
      = dictGet m cid +
        ((cs.filter (fun c => inQuery cq c.id && c.id == cid)).map g).sum := by
  induction cs generalizing m with
  | nil => simp
  | cons c rest ih =>
      cases hq : inQuery cq c.id with
      | false => simp [hq, ih, List.filter_cons]
      | true =>
          by_cases hc : c.id = cid
          · subst hc
            simp [hq, ih, dictGet_dictAdd, List.filter_cons]
            ring
          · have hc2 : ¬cid = c.id := fun hh => hc hh.symm
            simp [hq, ih, dictGet_dictAdd, List.filter_cons, hc, hc2]

theorem dictGet_accumulateActivities (cq : List SrcConcept) (ps pe : ℤ) (cid : Nat)
    (acts : List SrcActivity) (m : List (Nat × ℚ)) :
    dictGet (accumulateActivities cq ps pe m acts) cid
      = dictGet m cid + (acts.map (activityContribution cq ps pe cid)).sum := by
  induction acts generalizing m with
  | nil => simp [accumulateActivities]
  | cons a rest ih =>
      have hstep := dictGet_inner_fold cq
        (fun c => c.quantity * fractionInPeriod a ps pe) cid a.concepts m
      simp only [accumulateActivities, List.foldl_cons] at ih ⊢
      rw [ih, hstep]
      simp [activityContribution, add_assoc]

/-- Scenario A concept Q: quantity 100, unit price 10. -/
def scenarioAConcept : SrcConcept :=
  ⟨1, 100, 10, true, 1, 1, 1⟩

/-- Scenario A activity X: Jan 1 (day 1) to Jan 10 (day 10), associated with
concept Q. -/
def scenarioAActivity : SrcActivity :=
  ⟨1, 1, 10, [scenarioAConcept]⟩

/-- Claim C2: in the Schedule Allocator, every activity intersecting the
period contributes `concept.quantity * (overlap_days / total_days)` to each
associated (and filtered) concept's programmed volume; a fully contained
activity has fraction exactly 1; in Scenario A (quantity 100, unit price 10,
activity day 1-10, period day 1-5) the programmed volume is 50 and the
programmed amount is 500. -/
theorem c2_schedule_proration (a : SrcActivity) (ps pe : ℤ)
    (hv : a.startDate ≤ a.endDate) (h1 : ps ≤ a.startDate) (h2 : a.endDate ≤ pe) :
    fractionInPeriod a ps pe = 1 ∧
    (∀ (cq : List SrcConcept) (acts : List SrcActivity) (cid : Nat),
      dictGet (accumulateActivities cq ps pe [] (overlapFilter ps pe acts)) cid
        = ((overlapFilter ps pe acts).map (activityContribution cq ps pe cid)).sum) ∧
    dictGet (accumulateActivities [scenarioAConcept] 1 5 []
        (overlapFilter 1 5 [scenarioAActivity])) 1 = 50 ∧
    (50 : ℚ) * scenarioAConcept.unitPrice = 500 := by
  refine ⟨?_, ?_, ?_, ?_⟩
  · have hmax : max a.startDate ps = a.startDate := max_eq_left h1
    have hmin : min a.endDate pe = a.endDate := min_eq_left h2
    have hpos : (0 : ℤ) < a.endDate - a.startDate + 1 := by omega
    have hne : ((a.endDate - a.startDate + 1 : ℤ) : ℚ) ≠ 0 := by
      exact_mod_cast hpos.ne'
    rw [fractionInPeriod, hmax, hmin, if_pos hpos]
    exact div_self hne
  · intro cq acts cid
    simpa [dictGet] using
      dictGet_accumulateActivities cq ps pe cid (overlapFilter ps pe acts) []
  · norm_num [overlapFilter, accumulateActivities, scenarioAActivity, scenarioAConcept,
      fractionInPeriod, dictAdd, dictGet, inQuery, List.filter]
  · norm_num [scenarioAConcept]

/-- Witness for C2: the activity spanning days 2-4 is fully contained in the
period days 1-5 and gets fraction exactly 1, and Scenario A's programmed
volume evaluates to 50. -/
theorem c2_schedule_proration_witness :
    fractionInPeriod ⟨2, 2, 4, []⟩ 1 5 = 1 ∧
    dictGet (accumulateActivities [scenarioAConcept] 1 5 []
        (overlapFilter 1 5 [scenarioAActivity])) 1 = 50 := by
  have h := c2_schedule_proration ⟨2, 2, 4, []⟩ 1 5 (by norm_num) (by norm_num)
    (by norm_num)
  exact ⟨h.1, h.2.2.1⟩

/-- The outcome of the program resolution in `PhysicalProgressSummaryView.get`
(views.py lines 226-351): the `programmed_volumes` dict, the
`programmed_found` flag and the `program_source` label. -/
structure ProgramResult where
  volumes : List (Nat × ℚ)
  found : Bool
  source : Option String
deriving DecidableEq

/-- `program_source = f"Cronograma: {schedule.name}"`. -/
def scheduleLabel (s : SrcSchedule) : String := "Cronograma: " ++ s.name

/-- `program_source = f"Estimación planificada: {estimation.name}"`. -/
def plannedLabel (e : PlannedEstimation) : String :=
  "Estimación planificada: " ++ e.name

/-- Step 1 (views.py lines 232-268): if a schedule id is supplied, look it up;
a missing schedule is swallowed (`except Schedule.DoesNotExist: pass`);
otherwise accumulate its overlapping activities. -/
def step1Result (scheduleParam : Option Nat) (schedules : List SrcSchedule)
    (cq : List SrcConcept) (ps pe : ℤ) : List (Nat × ℚ) × Option String :=
  match scheduleParam with
  | none => ([], none)
  | some sid =>
      match schedules.find? (fun s => s.id == sid) with
      | none => ([], none)
      | some sched =>
          (accumulateActivities cq ps pe [] (overlapFilter ps pe sched.activities),
           some (scheduleLabel sched))

/-- The step-2 queryset (views.py lines 273-276): active schedules whose
construction is reachable from the filtered concepts. -/
def activeSchedules (schedules : List SrcSchedule) (cq : List SrcConcept) :
    List SrcSchedule :=
  schedules.filter
    (fun s => s.isActive && cq.any (fun c => c.constructionId == s.constructionId))

/-- Step 2 loop (views.py lines 278-312): for each active schedule with
overlapping activities, set the source label and accumulate into the same
dict; break as soon as the dict is non-empty. -/
def step2Loop (cq : List SrcConcept) (ps pe : ℤ) :
    List SrcSchedule → List (Nat × ℚ) → Option String → ProgramResult
  | [], m, src => ⟨m, false, src⟩
  | s :: rest, m, src =>
      if (overlapFilter ps pe s.activities).isEmpty then
        step2Loop cq ps pe rest m src
      else
        let m2 := accumulateActivities cq ps pe m (overlapFilter ps pe s.activities)
        if m2.isEmpty then step2Loop cq ps pe rest m2 (some (scheduleLabel s))
        else ⟨m2, true, some (scheduleLabel s)⟩

/-- The per-detail query-parameter filters of step 3 (views.py lines 329-334). -/
def detailPasses (cParam wiParam catParam : Option Nat) (d : SrcEstDetailRow) : Bool :=
  optMatch cParam d.concept.id && optMatch wiParam d.concept.workItemId &&
    optMatch catParam d.concept.catalogId

/-- The step-3 queryset (views.py lines 316-324): planned estimations whose
period intersects the requested period, restricted to the filtered concepts'
constructions when a `catalog` parameter was given. -/
def plannedCandidates (planned : List PlannedEstimation) (catParam : Option Nat)
    (cq : List SrcConcept) (ps pe : ℤ) : List PlannedEstimation :=
  let base := planned.filter
    (fun e => e.isPlanned && decide (e.periodStart ≤ pe) && decide (ps ≤ e.periodEnd))
  if catParam.isSome then
    base.filter (fun e =>
      match e.constructionId with
      | some c => cq.any (fun x => x.constructionId == c)
      | none => false)
  else base

/-- Step-3 accumulation (views.py lines 339-347): sum `detail.volume` per
concept, without proration, skipping concepts outside `concepts_query`. -/
def accumulateDetails (cq : List SrcConcept) (m0 : List (Nat × ℚ))
    (ds : List SrcEstDetailRow) : List (Nat × ℚ) :=
  ds.foldl
    (fun m d => if inQuery cq d.concept.id then dictAdd m d.concept.id d.volume else m)
    m0

/-- Step 3 loop (views.py lines 326-351): for each candidate estimation with
matching details, set the source label and accumulate; break as soon as the
dict is non-empty. -/
def step3Loop (cParam wiParam catParam : Option Nat) (cq : List SrcConcept) :
    List PlannedEstimation → List (Nat × ℚ) → Option String → ProgramResult
  | [], m, src => ⟨m, false, src⟩
  | e :: rest, m, src =>
      if (e.details.filter (detailPasses cParam wiParam catParam)).isEmpty then
        step3Loop cParam wiParam catParam cq rest m src
      else
        let m2 := accumulateDetails cq m
          (e.details.filter (detailPasses cParam wiParam catParam))
        if m2.isEmpty then
          step3Loop cParam wiParam catParam cq rest m2 (some (plannedLabel e))
        else ⟨m2, true, some (plannedLabel e)⟩

/-- The step-3 stage as invoked at views.py line 315. -/
def step3Stage (cParam wiParam catParam : Option Nat) (cq : List SrcConcept)
    (planned : List PlannedEstimation) (ps pe : ℤ)
    (m : List (Nat × ℚ)) (src : Option String) : ProgramResult :=
  step3Loop cParam wiParam catParam cq (plannedCandidates planned catParam cq ps pe) m src

/-- The complete fallback resolution of `PhysicalProgressSummaryView.get`
(views.py lines 226-351).  Note the step-2 guard at line 271:
`if not programmed_found and not schedule_id`. -/
def resolveProgram (cParam wiParam catParam scheduleParam : Option Nat)
    (schedules : List SrcSchedule) (planned : List PlannedEstimation)
    (cq : List SrcConcept) (ps pe : ℤ) : ProgramResult :=
  let s1 := step1Result scheduleParam schedules cq ps pe
  let found1 := !s1.1.isEmpty
  let s2 :=
    if !found1 && scheduleParam.isNone then
      step2Loop cq ps pe (activeSchedules schedules cq) s1.1 s1.2
    else ⟨s1.1, found1, s1.2⟩
  if s2.found then ⟨s2.volumes, true, s2.source⟩
  else step3Stage cParam wiParam catParam cq planned ps pe s2.volumes s2.source

/-- The fallback resolution as claim C3 words it: step 2 is attempted whenever
step 1 "was not requested or produced an empty mapping".  Written only to be
compared with `resolveProgram`; its sole difference is the step-2 guard. -/
def resolveProgramClaim (cParam wiParam catParam scheduleParam : Option Nat)
    (schedules : List SrcSchedule) (planned : List PlannedEstimation)
    (cq : List SrcConcept) (ps pe : ℤ) : ProgramResult :=
  let s1 := step1Result scheduleParam schedules cq ps pe
  let found1 := !s1.1.isEmpty
  let s2 :=
    if !found1 then
      step2Loop cq ps pe (activeSchedules schedules cq) s1.1 s1.2
    else ⟨s1.1, found1, s1.2⟩
  if s2.found then ⟨s2.volumes, true, s2.source⟩
  else step3Stage cParam wiParam catParam cq planned ps pe s2.volumes s2.source

/-- First-success-wins reading of step 2: the first active schedule whose own
overlapping activities yield a non-empty mapping. -/
def step2First (cq : List SrcConcept) (ps pe : ℤ) :
    List SrcSchedule → Option (List (Nat × ℚ) × String)
  | [] => none
  | s :: rest =>
      if (accumulateActivities cq ps pe [] (overlapFilter ps pe s.activities)).isEmpty
      then step2First cq ps pe rest
      else some (accumulateActivities cq ps pe [] (overlapFilter ps pe s.activities),
        scheduleLabel s)

/-- First-success-wins reading of step 3: the first candidate planned
estimation whose filtered details yield a non-empty mapping. -/
def step3First (cParam wiParam catParam : Option Nat) (cq : List SrcConcept) :
    List PlannedEstimation → Option (List (Nat × ℚ) × String)
  | [] => none
  | e :: rest =>
      if (accumulateDetails cq []
            (e.details.filter (detailPasses cParam wiParam catParam))).isEmpty
      then step3First cParam wiParam catParam cq rest
      else some (accumulateDetails cq []
          (e.details.filter (detailPasses cParam wiParam catParam)), plannedLabel e)

/-- The amended fallback chain: step 2 only when no schedule id was requested,
each of steps 2 and 3 as an explicit first-success-wins scan, step 3 only
when steps 1-2 produced nothing. -/
def resolveProgramAmended (cParam wiParam catParam scheduleParam : Option Nat)
    (schedules : List SrcSchedule) (planned : List PlannedEstimation)
    (cq : List SrcConcept) (ps pe : ℤ) : ProgramResult :=
  let fall3 : ProgramResult :=
    match step3First cParam wiParam catParam cq
        (plannedCandidates planned catParam cq ps pe) with
    | some (m, s) => ⟨m, true, some s⟩
    | none => ⟨[], false, none⟩
  match scheduleParam with
  | some _ =>
      let s1 := step1Result scheduleParam schedules cq ps pe
      if !s1.1.isEmpty then ⟨s1.1, true, s1.2⟩ else fall3
  | none =>
      match step2First cq ps pe (activeSchedules schedules cq) with
      | some (m, s) => ⟨m, true, some s⟩
      | none => fall3


theorem step2Loop_of_first_some (cq : List SrcConcept) (ps pe : ℤ)
    (l : List SrcSchedule) (m : List (Nat × ℚ)) (s : String)
    (h : step2First cq ps pe l = some (m, s)) :
    ∀ src, step2Loop cq ps pe l [] src = ⟨m, true, some s⟩ := by
  induction l with
  | nil => simp [step2First] at h
  | cons sch rest ih =>
      intro src
      by_cases hm :
          (accumulateActivities cq ps pe [] (overlapFilter ps pe sch.activities)).isEmpty
      · have hrec : step2First cq ps pe rest = some (m, s) := by
          simpa [step2First, hm] using h
        by_cases hov : (overlapFilter ps pe sch.activities).isEmpty
        · have hstep : step2Loop cq ps pe (sch :: rest) [] src
              = step2Loop cq ps pe rest [] src := by
            simp only [step2Loop]
            rw [if_pos hov]
          rw [hstep]
          exact ih hrec src
        · have hm2 :
              accumulateActivities cq ps pe [] (overlapFilter ps pe sch.activities) = [] :=
            List.isEmpty_iff.mp hm
          have hstep : step2Loop cq ps pe (sch :: rest) [] src
              = step2Loop cq ps pe rest [] (some (scheduleLabel sch)) := by
            simp only [step2Loop]
            rw [if_neg (by simpa using hov), hm2]
            rfl
          rw [hstep]
          exact ih hrec (some (scheduleLabel sch))
      · have hov : ¬(overlapFilter ps pe sch.activities).isEmpty = true := by
          intro hcon
          rw [List.isEmpty_iff.mp hcon] at hm
          simp [accumulateActivities] at hm
        have hsome :
            (accumulateActivities cq ps pe [] (overlapFilter ps pe sch.activities),
              scheduleLabel sch) = (m, s) := by
          have h2 := h
          simp only [step2First, if_neg hm] at h2
          exact Option.some.inj h2
        have hstep : step2Loop cq ps pe (sch :: rest) [] src
            = ⟨accumulateActivities cq ps pe [] (overlapFilter ps pe sch.activities),
                true, some (scheduleLabel sch)⟩ := by
          simp only [step2Loop]
          rw [if_neg hov, if_neg hm]
        rw [Prod.mk.injEq] at hsome
        rw [hstep, hsome.1, hsome.2]

theorem step2Loop_of_first_none (cq : List SrcConcept) (ps pe : ℤ)
    (l : List SrcSchedule)
    (h : step2First cq ps pe l = none) :
    ∀ src, ∃ src2, step2Loop cq ps pe l [] src = ⟨[], false, src2⟩ := by
  induction l with
  | nil => intro src; exact ⟨src, rfl⟩
  | cons sch rest ih =>
      intro src
      by_cases hm :
          (accumulateActivities cq ps pe [] (overlapFilter ps pe sch.activities)).isEmpty
      · have hrec : step2First cq ps pe rest = none := by
          simpa [step2First, hm] using h
        by_cases hov : (overlapFilter ps pe sch.activities).isEmpty
        · have hstep : step2Loop cq ps pe (sch :: rest) [] src
              = step2Loop cq ps pe rest [] src := by
            simp only [step2Loop]
            rw [if_pos hov]
          rw [hstep]
          exact ih hrec src
        · have hm2 :
              accumulateActivities cq ps pe [] (overlapFilter ps pe sch.activities) = [] :=
            List.isEmpty_iff.mp hm
          have hstep : step2Loop cq ps pe (sch :: rest) [] src
              = step2Loop cq ps pe rest [] (some (scheduleLabel sch)) := by
            simp only [step2Loop]
            rw [if_neg (by simpa using hov), hm2]
            rfl
          rw [hstep]
          exact ih hrec (some (scheduleLabel sch))
      · exfalso
        simp [step2First, hm] at h

theorem step3Loop_of_first_some (cParam wiParam catParam : Option Nat)
    (cq : List SrcConcept) (l : List PlannedEstimation)
    (m : List (Nat × ℚ)) (s : String)
    (h : step3First cParam wiParam catParam cq l = some (m, s)) :
    ∀ src, step3Loop cParam wiParam catParam cq l [] src = ⟨m, true, some s⟩ := by
  induction l with
  | nil => simp [step3First] at h
  | cons e rest ih =>
      intro src
      by_cases hm :
          (accumulateDetails cq []
            (e.details.filter (detailPasses cParam wiParam catParam))).isEmpty
      · have hrec : step3First cParam wiParam catParam cq rest = some (m, s) := by
          simpa [step3First, hm] using h
        by_cases hds : (e.details.filter (detailPasses cParam wiParam catParam)).isEmpty
        · have hstep : step3Loop cParam wiParam catParam cq (e :: rest) [] src
              = step3Loop cParam wiParam catParam cq rest [] src := by
            simp only [step3Loop]
            rw [if_pos hds]
          rw [hstep]
          exact ih hrec src
        · have hm2 :
              accumulateDetails cq []
                (e.details.filter (detailPasses cParam wiParam catParam)) = [] :=
            List.isEmpty_iff.mp hm
          have hstep : step3Loop cParam wiParam catParam cq (e :: rest) [] src
              = step3Loop cParam wiParam catParam cq rest [] (some (plannedLabel e)) := by
            simp only [step3Loop]
            rw [if_neg (by simpa using hds), hm2]
            rfl
          rw [hstep]
          exact ih hrec (some (plannedLabel e))
      · have hds : ¬(e.details.filter (detailPasses cParam wiParam catParam)).isEmpty = true := by
          intro hcon
          rw [List.isEmpty_iff.mp hcon] at hm
          simp [accumulateDetails] at hm
        have hsome :
            (accumulateDetails cq []
              (e.details.filter (detailPasses cParam wiParam catParam)),
              plannedLabel e) = (m, s) := by
          have h2 := h
          simp only [step3First, if_neg hm] at h2
          exact Option.some.inj h2
        have hstep : step3Loop cParam wiParam catParam cq (e :: rest) [] src
            = ⟨accumulateDetails cq []
                (e.details.filter (detailPasses cParam wiParam catParam)),
                true, some (plannedLabel e)⟩ := by
          simp only [step3Loop]
          rw [if_neg hds, if_neg hm]
        rw [Prod.mk.injEq] at hsome
        rw [hstep, hsome.1, hsome.2]

theorem step3Loop_of_first_none (cParam wiParam catParam : Option Nat)
    (cq : List SrcConcept) (l : List PlannedEstimation)
    (h : step3First cParam wiParam catParam cq l = none) :
    ∀ src, ∃ src2, step3Loop cParam wiParam catParam cq l [] src = ⟨[], false, src2⟩ := by
  induction l with
  | nil => intro src; exact ⟨src, rfl⟩
  | cons e rest ih =>
      intro src
      by_cases hm :
          (accumulateDetails cq []
            (e.details.filter (detailPasses cParam wiParam catParam))).isEmpty
      · have hrec : step3First cParam wiParam catParam cq rest = none := by
          simpa [step3First, hm] using h
        by_cases hds : (e.details.filter (detailPasses cParam wiParam catParam)).isEmpty
        · have hstep : step3Loop cParam wiParam catParam cq (e :: rest) [] src
              = step3Loop cParam wiParam catParam cq rest [] src := by
            simp only [step3Loop]
            rw [if_pos hds]
          rw [hstep]
          exact ih hrec src
        · have hm2 :
              accumulateDetails cq []
                (e.details.filter (detailPasses cParam wiParam catParam)) = [] :=
            List.isEmpty_iff.mp hm
          have hstep : step3Loop cParam wiParam catParam cq (e :: rest) [] src
              = step3Loop cParam wiParam catParam cq rest [] (some (plannedLabel e)) := by
            simp only [step3Loop]
            rw [if_neg (by simpa using hds), hm2]
            rfl
          rw [hstep]
          exact ih hrec (some (plannedLabel e))
      · exfalso
        simp [step3First, hm] at h

/-- Counterexample input for claim C3: requested schedule 1 has no
activities, while active schedule 2 has an activity overlapping the period
and associated with the filtered concept. -/
def c3Schedules : List SrcSchedule :=
  [⟨1, "S1", true, 1, []⟩,
   ⟨2, "S2", true, 1, [⟨1, 1, 10, [scenarioAConcept]⟩]⟩]

/-- Claim C3 counterexample: with schedule 1 explicitly requested and yielding
an empty mapping, the code skips step 2 entirely and ends with no program
(found = false), whereas the chain described by the claim (step 2 attempted
whenever step 1 produced an empty mapping) finds active schedule 2
(found = true). -/
theorem c3_fallback_counterexample :
    (resolveProgram none none none (some 1) c3Schedules []
        [scenarioAConcept] 1 5).found = false ∧
    (resolveProgramClaim none none none (some 1) c3Schedules []
        [scenarioAConcept] 1 5).found = true := by
  constructor
  · simp [resolveProgram, resolveProgramClaim, step1Result, step2Loop, step3Loop,
      step3Stage, plannedCandidates, activeSchedules, overlapFilter,
      accumulateActivities, accumulateDetails, inQuery, dictAdd,
      c3Schedules, scenarioAConcept, scheduleLabel, List.find?]
  · simp [resolveProgram, resolveProgramClaim, step1Result, step2Loop, step3Loop,
      step3Stage, plannedCandidates, activeSchedules, overlapFilter,
      accumulateActivities, accumulateDetails, inQuery, dictAdd,
      c3Schedules, scenarioAConcept, scheduleLabel, List.find?]

/-- Claim C3 amended: step 2 (active schedules of the constructions reachable
from the filtered concepts, first non-empty mapping wins, no merging) is
attempted only when no schedule id was requested; when the requested schedule
produced an empty mapping the chain skips step 2 and attempts the
planned-estimation fallback directly; step 3 runs only when steps 1-2
produced nothing.  `resolveProgram` (the code) agrees with the staged
first-success-wins resolution `resolveProgramAmended` on the mapping, the
found flag, and (when a program was found) the provenance label. -/
theorem c3_fallback_chain_amended (cParam wiParam catParam scheduleParam : Option Nat)
    (schedules : List SrcSchedule) (planned : List PlannedEstimation)
    (cq : List SrcConcept) (ps pe : ℤ) :
    (resolveProgram cParam wiParam catParam scheduleParam schedules planned
        cq ps pe).volumes
      = (resolveProgramAmended cParam wiParam catParam scheduleParam schedules
          planned cq ps pe).volumes ∧
    (resolveProgram cParam wiParam catParam scheduleParam schedules planned
        cq ps pe).found
      = (resolveProgramAmended cParam wiParam catParam scheduleParam schedules
          planned cq ps pe).found ∧
    ((resolveProgram cParam wiParam catParam scheduleParam schedules planned
        cq ps pe).found = true →
      (resolveProgram cParam wiParam catParam scheduleParam schedules planned
          cq ps pe).source
        = (resolveProgramAmended cParam wiParam catParam scheduleParam schedules
            planned cq ps pe).source) := by
  cases scheduleParam with
  | some sid =>
      by_cases h1 : (step1Result (some sid) schedules cq ps pe).1.isEmpty
      · have h1' : (step1Result (some sid) schedules cq ps pe).1 = [] :=
          List.isEmpty_iff.mp h1
        have hr : resolveProgram cParam wiParam catParam (some sid) schedules
            planned cq ps pe
            = step3Loop cParam wiParam catParam cq
                (plannedCandidates planned catParam cq ps pe) []
                (step1Result (some sid) schedules cq ps pe).2 := by
          simp only [resolveProgram, step3Stage]
          rw [h1']
          simp
        cases h3 : step3First cParam wiParam catParam cq
            (plannedCandidates planned catParam cq ps pe) with
        | some p =>
            obtain ⟨m, s⟩ := p
            have hl := step3Loop_of_first_some cParam wiParam catParam cq _ m s h3
              (step1Result (some sid) schedules cq ps pe).2
            have ha : resolveProgramAmended cParam wiParam catParam (some sid)
                schedules planned cq ps pe = ⟨m, true, some s⟩ := by
              simp only [resolveProgramAmended]
              rw [h1', h3]
              simp
            rw [hr, hl, ha]
            simp
        | none =>
            obtain ⟨src2, hl⟩ := step3Loop_of_first_none cParam wiParam catParam cq _ h3
              (step1Result (some sid) schedules cq ps pe).2
            have ha : resolveProgramAmended cParam wiParam catParam (some sid)
                schedules planned cq ps pe = ⟨[], false, none⟩ := by
              simp only [resolveProgramAmended]
              rw [h1', h3]
              simp
            rw [hr, hl, ha]
            simp
      · have hr : resolveProgram cParam wiParam catParam (some sid) schedules
            planned cq ps pe
            = ⟨(step1Result (some sid) schedules cq ps pe).1, true,
                (step1Result (some sid) schedules cq ps pe).2⟩ := by
          simp only [resolveProgram]
          simp [h1]
        have ha : resolveProgramAmended cParam wiParam catParam (some sid)
            schedules planned cq ps pe
            = ⟨(step1Result (some sid) schedules cq ps pe).1, true,
                (step1Result (some sid) schedules cq ps pe).2⟩ := by
          simp only [resolveProgramAmended]
          simp [h1]
        rw [hr, ha]
        simp
  | none =>
      have hs1 : step1Result none schedules cq ps pe = ([], none) := rfl
      cases h2 : step2First cq ps pe (activeSchedules schedules cq) with
      | some p =>
          obtain ⟨m, s⟩ := p
          have hl := step2Loop_of_first_some cq ps pe _ m s h2 none
          have hr : resolveProgram cParam wiParam catParam none schedules
              planned cq ps pe = ⟨m, true, some s⟩ := by
            simp only [resolveProgram, hs1]
            simp [hl]
          have ha : resolveProgramAmended cParam wiParam catParam none
              schedules planned cq ps pe = ⟨m, true, some s⟩ := by
            simp only [resolveProgramAmended]
            rw [h2]
          rw [hr, ha]
          simp
      | none =>
          obtain ⟨src2, hl⟩ := step2Loop_of_first_none cq ps pe _ h2 none
          have hr : resolveProgram cParam wiParam catParam none schedules
              planned cq ps pe
              = step3Loop cParam wiParam catParam cq
                  (plannedCandidates planned catParam cq ps pe) [] src2 := by
            simp only [resolveProgram, step3Stage, hs1]
            simp [hl]
          cases h3 : step3First cParam wiParam catParam cq
              (plannedCandidates planned catParam cq ps pe) with
          | some p =>
              obtain ⟨m, s⟩ := p
              have hl3 := step3Loop_of_first_some cParam wiParam catParam cq _ m s h3 src2
              have ha : resolveProgramAmended cParam wiParam catParam none
                  schedules planned cq ps pe = ⟨m, true, some s⟩ := by
                simp only [resolveProgramAmended]
                rw [h2, h3]
              rw [hr, hl3, ha]
              simp
          | none =>
              obtain ⟨src3, hl3⟩ := step3Loop_of_first_none cParam wiParam catParam cq _ h3 src2
              have ha : resolveProgramAmended cParam wiParam catParam none
                  schedules planned cq ps pe = ⟨[], false, none⟩ := by
                simp only [resolveProgramAmended]
                rw [h2, h3]
              rw [hr, hl3, ha]
              simp

/-- The `Physical.status` choices: PENDING, APPROVED, REJECTED. -/
inductive Status where
  | pending
  | approved
  | rejected
deriving DecidableEq

/-- `avance.models.Physical`: an advance record (date modelled as a day
number, `auto_now_add` supplied by the caller as "today"). -/
structure PhysicalRec where
  id : Nat
  conceptId : Nat
  volume : ℚ
  date : ℤ
  status : Status
  comments : String
deriving DecidableEq

/-- `avance.models.PhysicalStatusHistory`: an immutable audit row.
`changedAt` is the day number of the change (`changed_at.date()`). -/
structure HistoryRow where
  physicalId : Nat
  previousStatus : Option Status
  newStatus : Status
  changedAt : ℤ
  changedBy : Option Nat
deriving DecidableEq

/-- The per-concept executed query (views.py lines 356-361): sum of volumes
of APPROVED records of the concept dated inside the period. -/
def approvedVolumeFor (phys : List PhysicalRec) (cid : Nat) (ps pe : ℤ) : ℚ :=
  ((phys.filter (fun r => r.conceptId == cid && decide (r.status = Status.approved) &&
      decide (ps ≤ r.date) && decide (r.date ≤ pe))).map (fun r => r.volume)).sum

/-- The `executed_volumes` dict (views.py lines 354-364): one entry per
filtered concept whose in-period approved volume is positive. -/
def executedVolumesList (phys : List PhysicalRec) (cq : List SrcConcept) (ps pe : ℤ) :
    List (Nat × ℚ) :=
  cq.foldl
    (fun m c =>
      if 0 < approvedVolumeFor phys c.id ps pe then
        m ++ [(c.id, approvedVolumeFor phys c.id ps pe)]
      else m)
    []

/-- The weekly windows of the chart loop (views.py lines 469-509): starting at
`period_start`, each window ends at `min(start + 6, period_end)` and the next
window starts the day after, while the start is at most `period_end`.  The
fuel (one unit per day of the period) strictly bounds the number of
iterations, so the recursion mirrors the while loop exactly. -/
def weekStartsAux : Nat → ℤ → ℤ → List (ℤ × ℤ)
  | 0, _, _ => []
  | fuel + 1, ws, pe =>
      if ws ≤ pe then
        (ws, min (ws + 6) pe) :: weekStartsAux fuel (min (ws + 6) pe + 1) pe
      else []

/-- The list of weekly windows for a period. -/
def weekStarts (ps pe : ℤ) : List (ℤ × ℤ) :=
  weekStartsAux (pe + 1 - ps).toNat ps pe

/-- The record filters of the weekly chart query (views.py lines 483-488):
an optional concept-id filter plus `concept__work_item_id` and
`concept__catalog_id` joins. -/
def weeklyRecordPasses (concepts : List SrcConcept) (cv wiParam catParam : Option Nat)
    (r : PhysicalRec) : Bool :=
  optMatch cv r.conceptId &&
  (match wiParam with
   | none => true
   | some w =>
       match concepts.find? (fun c => c.id == r.conceptId) with
       | some c => c.workItemId == w
       | none => false) &&
  (match catParam with
   | none => true
   | some ct =>
       match concepts.find? (fun c => c.id == r.conceptId) with
       | some c => c.catalogId == ct
       | none => false)

/-- One weekly bucket's executed volume (views.py lines 477-492): APPROVED
records dated inside the window that pass the filters. -/
def bucketVolume (phys : List PhysicalRec) (concepts : List SrcConcept)
    (cv wiParam catParam : Option Nat) (ws we : ℤ) : ℚ :=
  ((phys.filter (fun r => decide (r.status = Status.approved) && decide (ws ≤ r.date) &&
      decide (r.date ≤ we) && weeklyRecordPasses concepts cv wiParam catParam r)).map
    (fun r => r.volume)).sum

/-- A Python `for` loop's variable after the loop: the last element processed,
or the previous binding when the iterable was empty.  Used to model the
shadowing of the `concept` query parameter by the loops at views.py lines
355 and 416. -/
def loopVar (l : List SrcConcept) (prev : Option Nat) : Option Nat :=
  l.foldl (fun _ c => some c.id) prev

/-- The sum of the weekly-bucket executed volumes produced by
`PhysicalProgressSummaryView.get`.  The weekly queries reuse the name
`concept` (views.py line 483), which at that point no longer holds the query
parameter: it was rebound by `for concept in concepts_query` (line 355) and
then by `for concept in paginated_concepts` (line 416), so the weekly filter
uses the last paginated concept's id. -/
def summaryWeeklyTotal (concepts : List SrcConcept) (schedules : List SrcSchedule)
    (planned : List PlannedEstimation) (phys : List PhysicalRec)
    (cParam wiParam catParam scheduleParam : Option Nat)
    (page pageSize : Nat) (ps pe : ℤ) : ℚ :=
  let cq := conceptsQuery concepts cParam wiParam catParam
  let prog := resolveProgram cParam wiParam catParam scheduleParam schedules planned cq ps pe
  let execm := executedVolumesList phys cq ps pe
  let relevant := execm.map Prod.fst ++ prog.volumes.map Prod.fst
  let filtered :=
    if !relevant.isEmpty || !(cParam.isSome || wiParam.isSome || catParam.isSome) then
      cq.filter (fun c => relevant.any (fun k => k == c.id))
    else cq
  let paginated := (filtered.drop ((page - 1) * pageSize)).take pageSize
  let cv := loopVar paginated (loopVar cq cParam)
  ((weekStarts ps pe).map
    (fun b => bucketVolume phys concepts cv wiParam catParam b.1 b.2)).sum

/-- The period's total executed physical volume as the claim describes it:
the sum over the filtered concepts of in-period APPROVED volumes. -/
def periodExecutedTotal (phys : List PhysicalRec) (cq : List SrcConcept) (ps pe : ℤ) : ℚ :=
  (cq.map (fun c => approvedVolumeFor phys c.id ps pe)).sum

/-- Failing input for claim C5: two active concepts. -/
def c5ConceptA : SrcConcept := ⟨1, 100, 10, true, 1, 1, 1⟩

/-- Failing input for claim C5: the second concept, paginated last. -/
def c5ConceptB : SrcConcept := ⟨2, 100, 10, true, 1, 1, 1⟩

/-- Failing input for claim C5: one APPROVED in-period record per concept. -/
def c5Physicals : List PhysicalRec :=
  [⟨1, 1, 10, 3, Status.approved, ""⟩, ⟨2, 2, 5, 3, Status.approved, ""⟩]

theorem c5_weekStarts_eval : weekStarts 1 7 = [(1, 7)] := by decide

theorem c5_take_eval (x y : SrcConcept) : List.take 50 [x, y] = [x, y] := rfl

/-- Claim C5 is the intended behaviour (spec section 8) but the code diverges:
with two concepts each holding one APPROVED record (volumes 10 and 5, both
dated day 3) in the period day 1 to day 7 and no filters, the weekly chart
sums to 5 — only records of the last paginated concept are counted, because
the weekly query's `concept` filter variable was shadowed — while the
period's total executed volume under the same filters is 15. -/
theorem c5_weekly_sum_bug :
    summaryWeeklyTotal [c5ConceptA, c5ConceptB] [] [] c5Physicals
        none none none none 1 50 1 7 = 5 ∧
    periodExecutedTotal c5Physicals
        (conceptsQuery [c5ConceptA, c5ConceptB] none none none) 1 7 = 15 ∧
    (5 : ℚ) ≠ 15 := by
  have hvolA : approvedVolumeFor c5Physicals 1 1 7 = 10 := by
    norm_num [approvedVolumeFor, c5Physicals]
  have hvolB : approvedVolumeFor c5Physicals 2 1 7 = 5 := by
    norm_num [approvedVolumeFor, c5Physicals]
  refine ⟨?_, ?_, by norm_num⟩
  · have h1 : conceptsQuery [c5ConceptA, c5ConceptB] none none none
        = [c5ConceptA, c5ConceptB] := rfl
    have hexec : executedVolumesList c5Physicals [c5ConceptA, c5ConceptB] 1 7
        = [(1, 10), (2, 5)] := by
      simp only [executedVolumesList, List.foldl_cons, List.foldl_nil,
        c5ConceptA, c5ConceptB]
      norm_num [hvolA, hvolB]
    have hprog : resolveProgram none none none none [] []
        [c5ConceptA, c5ConceptB] 1 7 = ⟨[], false, none⟩ := rfl
    have hbucket : bucketVolume c5Physicals [c5ConceptA, c5ConceptB]
        (some 2) none none 1 7 = 5 := by
      norm_num [bucketVolume, weeklyRecordPasses, optMatch, c5Physicals]
    simp only [summaryWeeklyTotal, h1, hexec, hprog]
    simp only [c5_weekStarts_eval]
    norm_num [loopVar, c5_take_eval, c5ConceptA, c5ConceptB, hbucket]
    exact hbucket
  · norm_num [periodExecutedTotal, conceptsQuery, optMatch,
      c5ConceptA, c5ConceptB, hvolA, hvolB]

/-- The state of the Progress Ledger: the `Physical` table and the
`PhysicalStatusHistory` table. -/
structure LedgerState where
  physicals : List PhysicalRec
  history : List HistoryRow
deriving DecidableEq

/-- AutoField primary key for a new `Physical` row. -/
def freshPhysicalId (s : LedgerState) : Nat :=
  (s.physicals.map (fun r => r.id)).foldl max 0 + 1

/-- `PhysicalListCreateView.perform_create` with `PhysicalSerializer`
validation (serializers.py lines 8-28): the volume must be positive, the
status may be any of PENDING/APPROVED/REJECTED (the `Status` type carries
exactly the values `validate_status` accepts), the concept must exist;
`date` is `auto_now_add` (today).  The view only calls `serializer.save()`
(views.py lines 86-113), so no history row is written.  The per-user
permission check is an external concern and is not modelled. -/
def createPhysical (concepts : List SrcConcept) (s : LedgerState)
    (conceptId : Nat) (volume : ℚ) (st : Status) (comments : String)
    (today : ℤ) : Except String LedgerState :=
  if volume ≤ 0 then Except.error "volume must be positive"
  else if !(concepts.any (fun c => c.id == conceptId)) then
    Except.error "concept does not exist"
  else Except.ok
    { s with physicals :=
        s.physicals ++ [⟨freshPhysicalId s, conceptId, volume, today, st, comments⟩] }

/-- The writable payload of `PhysicalSerializer` on the detail endpoint:
concept, volume, status and comments (`date` is `auto_now_add`, read-only). -/
structure PhysicalPayload where
  conceptId : Nat
  volume : ℚ
  status : Status
  comments : String
deriving DecidableEq

/-- `PhysicalDetailView.perform_update` (views.py lines 149-189): capture the
old status, save the updated fields, and append one history row capturing
(previous status, new status, change time, acting user) exactly when the
status changed.  `actor` is `request.user` when authenticated, else None. -/
def performUpdatePhysical (s : LedgerState) (pid : Nat) (p : PhysicalPayload)
    (now : ℤ) (actor : Option Nat) : LedgerState :=
  match s.physicals.find? (fun r => r.id == pid) with
  | none => s
  | some r =>
      { physicals := s.physicals.map
          (fun x => if x.id == pid then
              ⟨r.id, p.conceptId, p.volume, r.date, p.status, p.comments⟩
            else x),
        history :=
          if r.status ≠ p.status then
            s.history ++ [⟨pid, some r.status, p.status, now, actor⟩]
          else s.history }

/-- `PhysicalDetailView`'s DELETE handler: the default `perform_destroy`
calls `instance.delete()`, and `PhysicalStatusHistory.physical` is declared
`on_delete=CASCADE` (models.py line 31), so the record's history rows are
deleted with the record. -/
def destroyPhysical (s : LedgerState) (pid : Nat) : LedgerState :=
  { physicals := s.physicals.filter (fun r => !(r.id == pid)),
    history := s.history.filter (fun h => !(h.physicalId == pid)) }

/-- Claim C4: for every update of a Physical record through the detail
endpoint, when the stored status differs from the updated status exactly one
history row is appended, capturing the previous status, the new status, the
change time and the acting user; when the status is unchanged no history row
is created. -/
theorem c4_status_history_update (s : LedgerState) (pid : Nat)
    (p : PhysicalPayload) (now : ℤ) (actor : Option Nat) (r : PhysicalRec)
    (hfind : s.physicals.find? (fun x => x.id == pid) = some r) :
    (r.status ≠ p.status →
      (performUpdatePhysical s pid p now actor).history
        = s.history ++ [⟨pid, some r.status, p.status, now, actor⟩]) ∧
    (r.status = p.status →
      (performUpdatePhysical s pid p now actor).history = s.history) := by
  constructor <;> intro h <;> simp [performUpdatePhysical, hfind, h]

/-- Witness for C4: a PENDING record updated to APPROVED appends exactly the
one expected history row. -/
theorem c4_status_history_update_witness :
    (performUpdatePhysical ⟨[⟨1, 1, 5, 0, Status.pending, ""⟩], []⟩ 1
        ⟨1, 5, Status.approved, ""⟩ 3 (some 7)).history
      = [] ++ [⟨1, some Status.pending, Status.approved, 3, some 7⟩] := by
  exact (c4_status_history_update ⟨[⟨1, 1, 5, 0, Status.pending, ""⟩], []⟩ 1
    ⟨1, 5, Status.approved, ""⟩ 3 (some 7) ⟨1, 1, 5, 0, Status.pending, ""⟩ rfl).1
    (by decide)

/-- Claim C9: the create endpoint accepts any of the three statuses in the
payload, never writes a history row, and from an empty ledger one create with
status APPROVED yields a record that counts as executed volume while the
audit history stays empty. -/
theorem c9_create_no_history (concepts : List SrcConcept) (s : LedgerState)
    (conceptId : Nat) (volume : ℚ) (comments : String) (today : ℤ)
    (hv : 0 < volume) (hc : concepts.any (fun c => c.id == conceptId) = true) :
    (∀ st : Status, createPhysical concepts s conceptId volume st comments today
      = Except.ok { s with physicals :=
          s.physicals ++ [⟨freshPhysicalId s, conceptId, volume, today, st, comments⟩] }) ∧
    (∀ (st : Status) (s' : LedgerState),
      createPhysical concepts s conceptId volume st comments today = Except.ok s' →
      s'.history = s.history) ∧
    (∀ s' : LedgerState,
      createPhysical concepts ⟨[], []⟩ conceptId volume Status.approved comments today
          = Except.ok s' →
      s'.history = [] ∧ approvedVolumeFor s'.physicals conceptId today today = volume) := by
  have hnv : ¬volume ≤ 0 := not_le.mpr hv
  refine ⟨?_, ?_, ?_⟩
  · intro st
    simp [createPhysical, hnv, hc]
  · intro st s' h
    simp [createPhysical, hnv, hc] at h
    rw [← h]
  · intro s' h
    simp [createPhysical, hnv, hc] at h
    rw [← h]
    constructor
    · rfl
    · simp [approvedVolumeFor, freshPhysicalId]

/-- Witness for C9: creating an APPROVED record of volume 20 from an empty
ledger leaves the history empty while the executed volume counts 20. -/
theorem c9_create_no_history_witness :
    ∃ s' : LedgerState,
      createPhysical [c5ConceptA] ⟨[], []⟩ 1 20 Status.approved "" 0 = Except.ok s' ∧
      s'.history = [] ∧ approvedVolumeFor s'.physicals 1 0 0 = 20 := by
  refine ⟨⟨[⟨1, 1, 20, 0, Status.approved, ""⟩], []⟩, ?_, ?_⟩
  · rfl
  · exact (c9_create_no_history [c5ConceptA] ⟨[], []⟩ 1 20 "" 0 (by norm_num)
      (by decide)).2.2 ⟨[⟨1, 1, 20, 0, Status.approved, ""⟩], []⟩ rfl

/-- Claim C10: deleting a Physical record through the detail endpoint also
deletes every history row referencing it (CASCADE), while the records and
history rows of all other Physicals are unchanged. -/
theorem c10_cascade_delete (s : LedgerState) (pid : Nat) :
    (∀ h : HistoryRow, h ∈ (destroyPhysical s pid).history
        ↔ h ∈ s.history ∧ h.physicalId ≠ pid) ∧
    (∀ r : PhysicalRec, r ∈ (destroyPhysical s pid).physicals
        ↔ r ∈ s.physicals ∧ r.id ≠ pid) := by
  constructor <;> intro x <;> simp [destroyPhysical, List.mem_filter]

/-- `avance.models.Estimation` as the detail endpoints see it: the id and the
derived `total_amount`. -/
structure SrcEstimation where
  id : Nat
  totalAmount : ℚ
deriving DecidableEq

/-- A full `avance.models.EstimationDetail` row. -/
structure SrcEstimationDetail where
  id : Nat
  estimationId : Nat
  conceptId : Nat
  volume : ℚ
  amount : ℚ
deriving DecidableEq

/-- The state of the estimation tables. -/
structure EstState where
  estimations : List SrcEstimation
  details : List SrcEstimationDetail
deriving DecidableEq

/-- `Estimation.calculate_total` (models.py lines 69-70):
`details.aggregate(Sum(amount)) or 0`. -/
def sumAmounts (details : List SrcEstimationDetail) (eid : Nat) : ℚ :=
  ((details.filter (fun d => d.estimationId == eid)).map (fun d => d.amount)).sum

/-- `Estimation.update_total` (models.py lines 72-74): store the recomputed
total on the estimation row. -/
def updateTotal (s : EstState) (eid : Nat) : EstState :=
  { s with estimations := s.estimations.map (fun e =>
      if e.id == eid then ⟨e.id, sumAmounts s.details eid⟩ else e) }

/-- AutoField primary key for a new detail row. -/
def freshDetailId (s : EstState) : Nat :=
  (s.details.map (fun d => d.id)).foldl max 0 + 1

/-- One mutation through the estimation-detail endpoints.  The serializer
exposes `estimation` as a writable field, so an update may name a different
owning estimation. -/
inductive DetailOp where
  | createDetail (estimationId conceptId : Nat) (volume amount : ℚ)
  | updateDetail (detailId : Nat) (estimationId conceptId : Nat) (volume amount : ℚ)
  | destroyDetail (detailId : Nat)
deriving DecidableEq

/-- The detail endpoints (views.py lines 646-686): `perform_create` saves and
then updates the owning estimation's total; `perform_update` saves and then
updates the total of the detail's (possibly new) estimation; the destroy
handler captures the owner, deletes, and updates that owner's total. -/
def applyDetailOp (s : EstState) : DetailOp → EstState
  | DetailOp.createDetail eid cid v a =>
      updateTotal { s with details := s.details ++ [⟨freshDetailId s, eid, cid, v, a⟩] } eid
  | DetailOp.updateDetail did eid cid v a =>
      match s.details.find? (fun d => d.id == did) with
      | none => s
      | some _ =>
          updateTotal
            { s with details := s.details.map (fun d =>
                if d.id == did then ⟨d.id, eid, cid, v, a⟩ else d) } eid
  | DetailOp.destroyDetail did =>
      match s.details.find? (fun d => d.id == did) with
      | none => s
      | some d0 =>
          updateTotal { s with details := s.details.filter (fun d => !(d.id == did)) }
            d0.estimationId

/-- A sequence of endpoint operations. -/
def applyDetailOps (s : EstState) (ops : List DetailOp) : EstState :=
  ops.foldl applyDetailOp s

/-- The claimed invariant: every estimation's stored total equals the sum of
the amounts of its remaining details. -/
def TotalsInvariant (s : EstState) : Prop :=
  ∀ e ∈ s.estimations, e.totalAmount = sumAmounts s.details e.id

/-- Detail primary keys are unique (AutoField). -/
def DistinctDetailIds (s : EstState) : Prop :=
  (s.details.map (fun d => d.id)).Nodup

/-- A sequence of operations never moves a detail between estimations: every
update names the targeted detail's current owner. -/
def ownerPreserving : EstState → List DetailOp → Bool
  | _, [] => true
  | s, op :: rest =>
      (match op with
       | DetailOp.updateDetail did eid _ _ _ =>
           s.details.all (fun d => !(d.id == did) || (d.estimationId == eid))
       | _ => true) && ownerPreserving (applyDetailOp s op) rest

theorem sumAmounts_eq_contrib (l : List SrcEstimationDetail) (x : Nat) :
    sumAmounts l x
      = (l.map (fun d => if d.estimationId = x then d.amount else 0)).sum := by
  induction l with
  | nil => rfl
  | cons d rest ih =>
      by_cases h : d.estimationId = x <;>
        simp [sumAmounts, List.filter_cons, h] <;>
        simpa [sumAmounts] using ih

theorem le_foldl_max (l : List Nat) (b : Nat) : b ≤ l.foldl max b := by
  induction l generalizing b with
  | nil => exact le_refl b
  | cons a rest ih => exact le_trans (le_max_left b a) (ih (max b a))

theorem mem_le_foldl_max (l : List Nat) (b : Nat) (x : Nat) (hx : x ∈ l) :
    x ≤ l.foldl max b := by
  induction l generalizing b with
  | nil => cases hx
  | cons a rest ih =>
      rcases List.mem_cons.mp hx with h | h
      · subst h
        exact le_trans (le_max_right b x) (le_foldl_max rest (max b x))
      · exact ih (max b a) h

theorem sumAmounts_cons (d : SrcEstimationDetail) (t : List SrcEstimationDetail)
    (x : Nat) :
    sumAmounts (d :: t) x
      = (if d.estimationId = x then d.amount else 0) + sumAmounts t x := by
  rw [sumAmounts_eq_contrib, sumAmounts_eq_contrib]
  simp

theorem sumAmounts_append (l : List SrcEstimationDetail) (d : SrcEstimationDetail)
    (x : Nat) :
    sumAmounts (l ++ [d]) x
      = sumAmounts l x + (if d.estimationId = x then d.amount else 0) := by
  rw [sumAmounts_eq_contrib, sumAmounts_eq_contrib, List.map_append, List.sum_append]
  simp

theorem sumAmounts_update (l : List SrcEstimationDetail) (did eid cid : Nat)
    (v a : ℚ) (x : Nat) (hx : x ≠ eid)
    (hown : ∀ d ∈ l, d.id = did → d.estimationId = eid) :
    sumAmounts (l.map (fun d => if d.id == did then ⟨d.id, eid, cid, v, a⟩ else d)) x
      = sumAmounts l x := by
  rw [sumAmounts_eq_contrib, sumAmounts_eq_contrib, List.map_map]
  refine congrArg List.sum (List.map_congr_left ?_)
  intro d hd
  by_cases hid : d.id = did
  · have hde : d.estimationId = eid := hown d hd hid
    have h1 : ¬eid = x := fun hh => hx hh.symm
    simp [Function.comp, hid, hde, h1]
  · simp [Function.comp, hid]

theorem updateTotal_details (s : EstState) (eid : Nat) :
    (updateTotal s eid).details = s.details := rfl

theorem sumAmounts_filter_remove (l : List SrcEstimationDetail) (did : Nat)
    (d0 : SrcEstimationDetail) (x : Nat)
    (hnd : (l.map (fun d => d.id)).Nodup)
    (hfind : l.find? (fun d => d.id == did) = some d0)
    (hx : x ≠ d0.estimationId) :
    sumAmounts (l.filter (fun d => !(d.id == did))) x = sumAmounts l x := by
  induction l with
  | nil => simp [List.find?] at hfind
  | cons d rest ih =>
      simp only [List.map_cons, List.nodup_cons] at hnd
      by_cases hid : d.id = did
      · have hd0 : d0 = d := by
          rw [List.find?_cons_of_pos _ (by simpa using hid)] at hfind
          exact (Option.some.inj hfind).symm
        have hkeep : rest.filter (fun d => !(d.id == did)) = rest := by
          apply List.filter_eq_self.mpr
          intro d' hd'
          have hne : d'.id ≠ did := by
            intro hcon
            exact hnd.1 (List.mem_map.mpr ⟨d', hd', by rw [hcon, hid]⟩)
          simp [hne]
        have hcd : ¬d.estimationId = x := by
          rw [← hd0]
          exact fun hh => hx hh.symm
        rw [List.filter_cons_of_neg (by simpa using hid), hkeep, sumAmounts_cons]
        simp [hcd]
      · have hfind' : rest.find? (fun d => d.id == did) = some d0 := by
          rwa [List.find?_cons_of_neg _ (by simpa using hid)] at hfind
        rw [List.filter_cons_of_pos (by simpa using hid), sumAmounts_cons,
          sumAmounts_cons, ih hnd.2 hfind']

theorem distinct_applyDetailOp (s : EstState) (op : DetailOp)
    (h : DistinctDetailIds s) : DistinctDetailIds (applyDetailOp s op) := by
  cases op with
  | createDetail eid cid v a =>
      simp only [DistinctDetailIds, applyDetailOp, updateTotal_details] at h ⊢
      rw [List.map_append]
      refine List.Nodup.append h (List.nodup_singleton _) ?_
      intro x hx hx'
      simp only [List.map_cons, List.map_nil, List.mem_singleton] at hx'
      subst hx'
      have hle := mem_le_foldl_max (s.details.map (fun d => d.id)) 0 _ hx
      simp only [freshDetailId] at hle
      omega
  | updateDetail did eid cid v a =>
      cases hfind : s.details.find? (fun d => d.id == did) with
      | none => simpa [DistinctDetailIds, applyDetailOp, hfind] using h
      | some d0 =>
          simp only [DistinctDetailIds, applyDetailOp, hfind, updateTotal_details]
          have hmap : (s.details.map (fun d =>
              if d.id == did then (⟨d.id, eid, cid, v, a⟩ : SrcEstimationDetail) else d)).map
                (fun d => d.id)
              = s.details.map (fun d => d.id) := by
            rw [List.map_map]
            refine List.map_congr_left ?_
            intro d hd
            by_cases hid : d.id = did <;> simp [Function.comp, hid]
          rw [hmap]
          exact h
  | destroyDetail did =>
      cases hfind : s.details.find? (fun d => d.id == did) with
      | none => simpa [DistinctDetailIds, applyDetailOp, hfind] using h
      | some d0 =>
          simp only [DistinctDetailIds, applyDetailOp, hfind, updateTotal_details]
          exact List.Nodup.sublist (List.Sublist.map _ (List.filter_sublist _)) h

theorem totals_applyDetailOp (s : EstState) (op : DetailOp)
    (hids : DistinctDetailIds s) (hinv : TotalsInvariant s)
    (hok : (match op with
            | DetailOp.updateDetail did eid _ _ _ =>
                s.details.all (fun d => !(d.id == did) || (d.estimationId == eid))
            | _ => true) = true) :
    TotalsInvariant (applyDetailOp s op) := by
  cases op with
  | createDetail eid cid v a =>
      intro e he
      simp only [applyDetailOp, updateTotal, updateTotal_details] at he ⊢
      obtain ⟨e0, he0, rfl⟩ := List.mem_map.mp he
      by_cases heq : e0.id = eid
      · simp [heq]
      · rw [if_neg (show ¬((e0.id == eid) = true) by simpa using heq)]
        rw [sumAmounts_append, hinv e0 he0]
        rw [if_neg (show ¬((⟨freshDetailId s, eid, cid, v, a⟩ :
            SrcEstimationDetail).estimationId = e0.id) from fun hh => heq hh.symm)]
        rw [add_zero]
  | updateDetail did eid cid v a =>
      have hall : ∀ d ∈ s.details, d.id = did → d.estimationId = eid := by
        intro d hd hdid
        have hb := List.all_eq_true.mp hok d hd
        simp [hdid] at hb
        exact hb
      intro e he
      cases hfind : s.details.find? (fun d => d.id == did) with
      | none =>
          simp only [applyDetailOp, hfind] at he ⊢
          exact hinv e he
      | some d0 =>
          simp only [applyDetailOp, hfind, updateTotal, updateTotal_details] at he ⊢
          obtain ⟨e0, he0, rfl⟩ := List.mem_map.mp he
          by_cases heq : e0.id = eid
          · simp [heq]
          · rw [if_neg (show ¬((e0.id == eid) = true) by simpa using heq)]
            rw [sumAmounts_update _ did eid cid v a e0.id heq hall]
            exact hinv e0 he0
  | destroyDetail did =>
      intro e he
      cases hfind : s.details.find? (fun d => d.id == did) with
      | none =>
          simp only [applyDetailOp, hfind] at he ⊢
          exact hinv e he
      | some d0 =>
          simp only [applyDetailOp, hfind, updateTotal, updateTotal_details] at he ⊢
          obtain ⟨e0, he0, rfl⟩ := List.mem_map.mp he
          by_cases heq : e0.id = d0.estimationId
          · simp [heq]
          · rw [if_neg (show ¬((e0.id == d0.estimationId) = true) by simpa using heq)]
            rw [sumAmounts_filter_remove _ did d0 e0.id hids hfind heq]
            exact hinv e0 he0

/-- Claim C1 amended: for every Estimation, after any sequence of detail
create/update/delete operations through the detail endpoints in which no
update reassigns a detail to a different estimation, `total_amount` equals
the sum of the amounts of the estimation's remaining details (empty sum 0).
When an update does move a detail, the code recomputes only the new owner's
total and the previous owner's total goes stale (see the counterexample). -/
theorem c1_total_invariant_owner_preserving (s : EstState) (ops : List DetailOp)
    (hids : DistinctDetailIds s) (hinv : TotalsInvariant s)
    (hop : ownerPreserving s ops = true) :
    TotalsInvariant (applyDetailOps s ops) := by
  induction ops generalizing s with
  | nil => exact hinv
  | cons op rest ih =>
      simp only [ownerPreserving, Bool.and_eq_true] at hop
      simp only [applyDetailOps, List.foldl_cons]
      exact ih (applyDetailOp s op) (distinct_applyDetailOp s op hids)
        (totals_applyDetailOp s op hids hinv hop.1) hop.2

/-- Claim C1 counterexample: starting from estimations 1 and 2 (both with
total 0 and no details), creating a detail of amount 300 on estimation 1 and
then updating that detail to belong to estimation 2 leaves estimation 1's
stored total at 300 while its remaining details sum to 0, so the invariant
claimed for every sequence of endpoint operations fails. -/
theorem c1_total_counterexample :
    ¬TotalsInvariant (applyDetailOps ⟨[⟨1, 0⟩, ⟨2, 0⟩], []⟩
      [DetailOp.createDetail 1 7 1 300, DetailOp.updateDetail 1 2 7 1 300]) := by
  have hs : applyDetailOps ⟨[⟨1, 0⟩, ⟨2, 0⟩], []⟩
      [DetailOp.createDetail 1 7 1 300, DetailOp.updateDetail 1 2 7 1 300]
      = ⟨[⟨1, 300⟩, ⟨2, 300⟩], [⟨1, 2, 7, 1, 300⟩]⟩ := by
    norm_num [applyDetailOps, applyDetailOp, updateTotal, sumAmounts,
      freshDetailId, List.find?]
  intro h
  have h1 := h ⟨1, 300⟩ (by rw [hs]; simp)
  rw [hs] at h1
  norm_num [sumAmounts] at h1

/-- Witness for C1 (Scenario C): creating a detail of amount 300 on an
estimation with total 0 makes the total 300, and deleting it returns the
total to 0; the invariant holds along this owner-preserving sequence. -/
theorem c1_total_invariant_witness :
    (applyDetailOps ⟨[⟨1, 0⟩], []⟩ [DetailOp.createDetail 1 7 1 300]).estimations
        = [⟨1, 300⟩] ∧
    (applyDetailOps ⟨[⟨1, 0⟩], []⟩
        [DetailOp.createDetail 1 7 1 300, DetailOp.destroyDetail 1]).estimations
        = [⟨1, 0⟩] ∧
    TotalsInvariant (applyDetailOps ⟨[⟨1, 0⟩], []⟩
        [DetailOp.createDetail 1 7 1 300, DetailOp.destroyDetail 1]) := by
  refine ⟨?_, ?_, ?_⟩
  · norm_num [applyDetailOps, applyDetailOp, updateTotal, sumAmounts, freshDetailId]
  · norm_num [applyDetailOps, applyDetailOp, updateTotal, sumAmounts,
      freshDetailId, List.find?, List.filter]
  · refine c1_total_invariant_owner_preserving ⟨[⟨1, 0⟩], []⟩
      [DetailOp.createDetail 1 7 1 300, DetailOp.destroyDetail 1] ?_ ?_ ?_
    · simp [DistinctDetailIds]
    · intro e he
      simp only [List.mem_singleton] at he
      subst he
      simp [sumAmounts]
    · rfl

/-- Insertion step of sorting activities by start date
(`schedule.activities.all().order_by('start_date')`). -/
def insertByStart (a : SrcActivity) : List SrcActivity → List SrcActivity
  | [] => [a]
  | b :: l => if a.startDate ≤ b.startDate then a :: b :: l else b :: insertByStart a l

/-- The schedule's activities sorted by start date ascending. -/
def sortByStart (l : List SrcActivity) : List SrcActivity :=
  l.foldr insertByStart []

/-- The selection loop of `CriticalPathViewSet.calculate` (cronograma/views.py
lines 312-318) after the first activity was taken: select an activity iff its
start date is at least the end date of the most recently selected activity. -/
def chainStep : ℤ → List SrcActivity → List SrcActivity
  | _, [] => []
  | ce, a :: rest =>
      if ce ≤ a.startDate then a :: chainStep a.endDate rest else chainStep ce rest

/-- The selected chain: the first sorted activity is always selected
(`idx == 0`), the rest through `chainStep`. -/
def calcChain : List SrcActivity → List SrcActivity
  | [] => []
  | a :: rest => a :: chainStep a.endDate rest

/-- The persisted `CriticalPathActivity` rows: the chain over the sorted
activities with `sequence_order = idx + 1` (cronograma/views.py lines
320-326). -/
def criticalPathRows (acts : List SrcActivity) : List (Nat × SrcActivity) :=
  (calcChain (sortByStart acts)).enum.map (fun p => (p.1 + 1, p.2))

/-- Scenario E activities: [Jan 1 - Jan 5], [Jan 3 - Jan 8], [Jan 10 - Jan 12]. -/
def scenarioEActs : List SrcActivity :=
  [⟨1, 1, 5, []⟩, ⟨2, 3, 8, []⟩, ⟨3, 10, 12, []⟩]

theorem mem_insertByStart (a : SrcActivity) (l : List SrcActivity) (x : SrcActivity) :
    x ∈ insertByStart a l ↔ x = a ∨ x ∈ l := by
  induction l with
  | nil => simp [insertByStart]
  | cons b t ih =>
      by_cases h : a.startDate ≤ b.startDate
      · simp [insertByStart, h]
      · simp [insertByStart, h, ih]
        tauto

theorem mem_sortByStart (l : List SrcActivity) (x : SrcActivity) :
    x ∈ sortByStart l ↔ x ∈ l := by
  induction l with
  | nil => simp [sortByStart]
  | cons a t ih =>
      simp only [sortByStart, List.foldr_cons] at ih ⊢
      rw [mem_insertByStart, ih, List.mem_cons]

theorem mem_chainStep (l : List SrcActivity) :
    ∀ (ce : ℤ) (x : SrcActivity), x ∈ chainStep ce l → x ∈ l := by
  induction l with
  | nil => simp [chainStep]
  | cons a rest ih =>
      intro ce x hx
      by_cases hsel : ce ≤ a.startDate
      · simp only [chainStep, if_pos hsel] at hx
        rcases List.mem_cons.mp hx with h | h
        · simp [h]
        · exact List.mem_cons_of_mem _ (ih a.endDate x h)
      · simp only [chainStep, if_neg hsel] at hx
        exact List.mem_cons_of_mem _ (ih ce x hx)

theorem mem_calcChain (l : List SrcActivity) (x : SrcActivity)
    (hx : x ∈ calcChain l) : x ∈ l := by
  cases l with
  | nil => simp [calcChain] at hx
  | cons a rest =>
      simp only [calcChain] at hx
      rcases List.mem_cons.mp hx with h | h
      · simp [h]
      · exact List.mem_cons_of_mem _ (mem_chainStep rest a.endDate x h)

theorem chainStep_spec (l : List SrcActivity)
    (hv : ∀ x ∈ l, x.startDate ≤ x.endDate) :
    ∀ ce : ℤ, (∀ x ∈ chainStep ce l, ce ≤ x.startDate) ∧
      List.Chain' (fun a b => a.endDate ≤ b.startDate) (chainStep ce l) := by
  induction l with
  | nil => intro ce; constructor <;> simp [chainStep]
  | cons a rest ih =>
      intro ce
      have hva : a.startDate ≤ a.endDate := hv a (by simp)
      have hvr : ∀ x ∈ rest, x.startDate ≤ x.endDate :=
        fun x hx => hv x (List.mem_cons_of_mem _ hx)
      by_cases hsel : ce ≤ a.startDate
      · constructor
        · intro x hx
          simp only [chainStep, if_pos hsel] at hx
          rcases List.mem_cons.mp hx with h | h
          · rw [h]; exact hsel
          · have hxe := ((ih hvr) a.endDate).1 x h
            omega
        · simp only [chainStep, if_pos hsel]
          rw [List.chain'_cons']
          refine ⟨?_, ((ih hvr) a.endDate).2⟩
          intro y hy
          exact ((ih hvr) a.endDate).1 y (List.mem_of_mem_head? hy)
      · simp only [chainStep, if_neg hsel]
        exact (ih hvr) ce

theorem calcChain_chain (l : List SrcActivity)
    (hv : ∀ x ∈ l, x.startDate ≤ x.endDate) :
    List.Chain' (fun a b => a.endDate ≤ b.startDate) (calcChain l) := by
  cases l with
  | nil => simp [calcChain]
  | cons a rest =>
      have hvr : ∀ x ∈ rest, x.startDate ≤ x.endDate :=
        fun x hx => hv x (List.mem_cons_of_mem _ hx)
      simp only [calcChain]
      rw [List.chain'_cons']
      exact ⟨fun y hy => (chainStep_spec rest hvr a.endDate).1 y (List.mem_of_mem_head? hy),
        (chainStep_spec rest hvr a.endDate).2⟩

theorem chain_tail_ge (a : SrcActivity) (rest : List SrcActivity)
    (hv : ∀ x ∈ rest, x.startDate ≤ x.endDate)
    (hc : List.Chain' (fun a b => a.endDate ≤ b.startDate) (a :: rest)) :
    ∀ b ∈ rest, a.endDate ≤ b.startDate := by
  induction rest generalizing a with
  | nil => simp
  | cons b t ih =>
      rw [List.chain'_cons] at hc
      intro x hx
      rcases List.mem_cons.mp hx with h | h
      · rw [h]; exact hc.1
      · have hvb : b.startDate ≤ b.endDate := hv b (by simp)
        have hbt := ih b (fun y hy => hv y (List.mem_cons_of_mem _ hy)) hc.2 x h
        have hab : a.endDate ≤ b.startDate := hc.1
        omega

theorem pairwise_of_chain_valid (l : List SrcActivity)
    (hv : ∀ x ∈ l, x.startDate ≤ x.endDate)
    (hc : List.Chain' (fun a b => a.endDate ≤ b.startDate) l) :
    List.Pairwise (fun a b => a.endDate ≤ b.startDate) l := by
  induction l with
  | nil => simp
  | cons a rest ih =>
      have hvr : ∀ x ∈ rest, x.startDate ≤ x.endDate :=
        fun x hx => hv x (List.mem_cons_of_mem _ hx)
      rw [List.pairwise_cons]
      exact ⟨chain_tail_ge a rest hvr hc, ih hvr (List.chain'_cons'.mp hc).2⟩

/-- Claim C6: the Critical Path Selector sorts activities by start date,
always selects the first, selects each later activity iff its start date is
at least the end date of the last selected one, and numbers the chain by
selection order; for valid activities (start ≤ end) the persisted chain is
pairwise non-overlapping and chronologically ordered, the sequence orders are
1, 2, ..., n, and on Scenario E's activities the chain has length 2. -/
theorem c6_critical_path_chain (acts : List SrcActivity)
    (hv : ∀ x ∈ acts, x.startDate ≤ x.endDate) :
    List.Pairwise (fun a b => a.endDate ≤ b.startDate) (calcChain (sortByStart acts)) ∧
    List.Pairwise (fun a b => a.startDate ≤ b.startDate) (calcChain (sortByStart acts)) ∧
    (calcChain (sortByStart acts)).head? = (sortByStart acts).head? ∧
    (criticalPathRows acts).map Prod.fst
      = (List.range (calcChain (sortByStart acts)).length).map (fun i => i + 1) ∧
    (criticalPathRows scenarioEActs).length = 2 := by
  have hv' : ∀ x ∈ sortByStart acts, x.startDate ≤ x.endDate :=
    fun x hx => hv x ((mem_sortByStart acts x).mp hx)
  have hvchain : ∀ x ∈ calcChain (sortByStart acts), x.startDate ≤ x.endDate :=
    fun x hx => hv' x (mem_calcChain _ x hx)
  have hpw := pairwise_of_chain_valid _ hvchain (calcChain_chain _ hv')
  refine ⟨hpw, ?_, ?_, ?_, ?_⟩
  · refine List.Pairwise.imp_of_mem ?_ hpw
    intro a b ha hb hab
    have := hvchain a ha
    omega
  · cases sortByStart acts <;> rfl
  · rw [criticalPathRows, List.map_map]
    have hcomp : (Prod.fst ∘ fun p : Nat × SrcActivity => (p.1 + 1, p.2))
        = (fun i => i + 1) ∘ Prod.fst := rfl
    rw [hcomp, ← List.map_map, List.enum_map_fst]
  · decide

/-- Witness for C6 (Scenario E): activities [day 1-5], [day 3-8], [day 10-12]
are all valid and the persisted chain has length 2. -/
theorem c6_critical_path_chain_witness :
    (criticalPathRows scenarioEActs).length = 2 :=
  (c6_critical_path_chain scenarioEActs (by decide)).2.2.2.2

/-- The qualifying filter of `ApprovalAnalyticsView.get` (views.py lines
549-552): history rows with previous_status PENDING and new_status APPROVED.
The view applies no date-range filter at all. -/
def latencyQualifies (h : HistoryRow) : Bool :=
  decide (h.previousStatus = some Status.pending) &&
    decide (h.newStatus = Status.approved)

/-- The annotated `days_taken` values (views.py line 553): each qualifying
row joined (inner join) to its Physical; `changed_at.date - physical.date`
in days. -/
def latencyDays (hist : List HistoryRow) (phys : List PhysicalRec) : List ℤ :=
  (hist.filter latencyQualifies).filterMap
    (fun h => (phys.find? (fun p => p.id == h.physicalId)).map
      (fun p => h.changedAt - p.date))

/-- The `Avg('days_taken') or 0` aggregate (views.py line 556), computed as a
running (sum, count) fold. -/
def approvalLatencyCode (hist : List HistoryRow) (phys : List PhysicalRec) : ℚ :=
  let sc := (latencyDays hist phys).foldl
    (fun (acc : ℚ × Nat) (d : ℤ) => (acc.1 + (d : ℚ), acc.2 + 1)) (0, 0)
  if sc.2 = 0 then 0 else sc.1 / sc.2

/-- Casting a day difference into the rational average. -/
def ratOfInt (d : ℤ) : ℚ := (d : ℚ)

/-- `approval_latency` as claim C7 words it: the average over qualifying rows
whose change falls within the given date range.  Written only to be compared
with `approvalLatencyCode`. -/
def approvalLatencyClaim (lo hi : ℤ) (hist : List HistoryRow)
    (phys : List PhysicalRec) : ℚ :=
  let ds : List ℤ := (hist.filter (fun h => latencyQualifies h &&
      decide (lo ≤ h.changedAt) && decide (h.changedAt ≤ hi))).filterMap
    (fun h => (phys.find? (fun p => p.id == h.physicalId)).map
      (fun p => h.changedAt - p.date))
  if ds.length = 0 then 0 else ((ds.map ratOfInt).sum) / ds.length

theorem foldl_sum_count (l : List ℤ) (s0 : ℚ) (n0 : Nat) :
    l.foldl (fun (acc : ℚ × Nat) (d : ℤ) => (acc.1 + (d : ℚ), acc.2 + 1)) (s0, n0)
      = (s0 + (l.map ratOfInt).sum, n0 + l.length) := by
  induction l generalizing s0 n0 with
  | nil => simp
  | cons d t ih =>
      simp only [List.foldl_cons, List.map_cons, List.sum_cons, List.length_cons, ih]
      rw [Prod.mk.injEq]
      constructor
      · simp [ratOfInt]
        ring
      · omega

/-- Two-row history for the C7 counterexample: one approval with latency 3
changed on day 13, one with latency 5 changed on day 100. -/
def c7Hist : List HistoryRow :=
  [⟨1, some Status.pending, Status.approved, 13, none⟩,
   ⟨2, some Status.pending, Status.approved, 100, none⟩]

/-- The corresponding Physical records for the C7 counterexample. -/
def c7Phys : List PhysicalRec :=
  [⟨1, 1, 20, 10, Status.approved, ""⟩, ⟨2, 1, 20, 95, Status.approved, ""⟩]

/-- Claim C7 counterexample: over the date range day 0 - day 20 the claimed
range-restricted average is 3, but the code never filters by date range and
returns the average over all qualifying rows, 4. -/
theorem c7_latency_counterexample :
    approvalLatencyClaim 0 20 c7Hist c7Phys = 3 ∧
    approvalLatencyCode c7Hist c7Phys = 4 ∧ (3 : ℚ) ≠ 4 := by
  refine ⟨?_, ?_, by norm_num⟩
  · have hd : ((c7Hist.filter (fun h => latencyQualifies h &&
        decide ((0 : ℤ) ≤ h.changedAt) && decide (h.changedAt ≤ (20 : ℤ)))).filterMap
          (fun h => (c7Phys.find? (fun p => p.id == h.physicalId)).map
            (fun p => h.changedAt - p.date))) = [3] := by decide
    simp only [approvalLatencyClaim, hd]
    norm_num [ratOfInt]
  · have hd : latencyDays c7Hist c7Phys = [3, 5] := by decide
    simp only [approvalLatencyCode, hd, foldl_sum_count]
    norm_num [ratOfInt]

/-- Claim C7 amended: `approval_latency` returns the average of
`(changed_at.date - physical.date)` over all history rows with
previous_status PENDING and new_status APPROVED, with no date-range
restriction, and 0 when no qualifying rows exist; on Scenario B's single
record (submitted day 10, approved day 13) it returns 3. -/
theorem c7_latency_amended (hist : List HistoryRow) (phys : List PhysicalRec) :
    approvalLatencyCode hist phys
      = (if (latencyDays hist phys).length = 0 then 0
         else ((latencyDays hist phys).map ratOfInt).sum
            / (latencyDays hist phys).length) ∧
    approvalLatencyCode [⟨1, some Status.pending, Status.approved, 13, none⟩]
        [⟨1, 1, 20, 10, Status.approved, ""⟩] = 3 := by
  constructor
  · simp only [approvalLatencyCode, foldl_sum_count, zero_add]
  · have hd : latencyDays [⟨1, some Status.pending, Status.approved, 13, none⟩]
        [⟨1, 1, 20, 10, Status.approved, ""⟩] = [3] := by decide
    simp only [approvalLatencyCode, hd, foldl_sum_count]
    norm_num [ratOfInt]

/-- One `approval_info` entry (views.py lines 382-386): submission date,
approval date and `days_to_approve = approval_date - submission_date`. -/
structure ApprovalInfo where
  submissionDate : ℤ
  approvalDate : ℤ
  daysToApprove : ℤ
deriving DecidableEq

/-- The queryset of views.py lines 369-374: history rows with new_status
APPROVED (any previous status) whose Physical belongs to the concept and is
dated inside the period, each joined to its Physical. -/
def approvalRowsFor (hist : List HistoryRow) (phys : List PhysicalRec)
    (cid : Nat) (ps pe : ℤ) : List (HistoryRow × PhysicalRec) :=
  hist.filterMap (fun h =>
    match phys.find? (fun p => p.id == h.physicalId) with
    | none => none
    | some p =>
        if decide (h.newStatus = Status.approved) && p.conceptId == cid &&
            decide (ps ≤ p.date) && decide (p.date ≤ pe) then some (h, p) else none)

/-- The rows as claim C8 words them: additionally previous_status = PENDING.
Written only to be compared with `approvalRowsFor`. -/
def approvalRowsClaim (hist : List HistoryRow) (phys : List PhysicalRec)
    (cid : Nat) (ps pe : ℤ) : List (HistoryRow × PhysicalRec) :=
  hist.filterMap (fun h =>
    match phys.find? (fun p => p.id == h.physicalId) with
    | none => none
    | some p =>
        if decide (h.previousStatus = some Status.pending) &&
            decide (h.newStatus = Status.approved) && p.conceptId == cid &&
            decide (ps ≤ p.date) && decide (p.date ≤ pe) then some (h, p) else none)

/-- One step of `order_by('-changed_at').first()`: keep the row with the
later change. -/
def pickLater (acc : Option (HistoryRow × PhysicalRec))
    (r : HistoryRow × PhysicalRec) : Option (HistoryRow × PhysicalRec) :=
  match acc with
  | none => some r
  | some b => if b.1.changedAt < r.1.changedAt then some r else some b

/-- `order_by('-changed_at').first()` over the joined rows. -/
def latestBy (rows : List (HistoryRow × PhysicalRec)) :
    Option (HistoryRow × PhysicalRec) :=
  rows.foldl pickLater none

/-- The approval metadata surfaced for a concept (views.py lines 366-386). -/
def approvalInfoCode (hist : List HistoryRow) (phys : List PhysicalRec)
    (cid : Nat) (ps pe : ℤ) : Option ApprovalInfo :=
  match latestBy (approvalRowsFor hist phys cid ps pe) with
  | none => none
  | some hp => some ⟨hp.2.date, hp.1.changedAt, hp.1.changedAt - hp.2.date⟩

/-- The approval metadata as claim C8 words it (PENDING → APPROVED rows
only).  Written only to be compared with `approvalInfoCode`. -/
def approvalInfoClaim (hist : List HistoryRow) (phys : List PhysicalRec)
    (cid : Nat) (ps pe : ℤ) : Option ApprovalInfo :=
  match latestBy (approvalRowsClaim hist phys cid ps pe) with
  | none => none
  | some hp => some ⟨hp.2.date, hp.1.changedAt, hp.1.changedAt - hp.2.date⟩

/-- A detail row's `approval_info` field: present only for concepts with an
executed-volume entry (`approval_info.get(concept.id, None)`, views.py lines
366-367 and 456). -/
def detailApprovalInfo (hist : List HistoryRow) (phys : List PhysicalRec)
    (execm : List (Nat × ℚ)) (cid : Nat) (ps pe : ℤ) : Option ApprovalInfo :=
  if execm.any (fun p => p.1 == cid) then approvalInfoCode hist phys cid ps pe
  else none

theorem foldl_pickLater_spec (l : List (HistoryRow × PhysicalRec)) :
    ∀ (acc : Option (HistoryRow × PhysicalRec)) (r : HistoryRow × PhysicalRec),
      l.foldl pickLater acc = some r →
      (acc = some r ∨ r ∈ l) ∧
      (∀ x ∈ l, x.1.changedAt ≤ r.1.changedAt) ∧
      (∀ a, acc = some a → a.1.changedAt ≤ r.1.changedAt) := by
  induction l with
  | nil =>
      intro acc r h
      simp only [List.foldl_nil] at h
      refine ⟨Or.inl h, by simp, ?_⟩
      intro a ha
      rw [h] at ha
      rw [Option.some.inj ha]
  | cons x t ih =>
      intro acc r h
      simp only [List.foldl_cons] at h
      obtain ⟨hmem, hall, hacc⟩ := ih (pickLater acc x) r h
      have hxle : x.1.changedAt ≤ r.1.changedAt := by
        cases acc with
        | none => exact hacc x rfl
        | some b =>
            by_cases hb : b.1.changedAt < x.1.changedAt
            · exact hacc x (by simp [pickLater, hb])
            · exact le_trans (not_lt.mp hb) (hacc b (by simp [pickLater, hb]))
      refine ⟨?_, ?_, ?_⟩
      · rcases hmem with hm | hm
        · cases acc with
          | none =>
              simp only [pickLater] at hm
              refine Or.inr ?_
              rw [← Option.some.inj hm]
              exact List.mem_cons_self _ _
          | some b =>
              by_cases hx : b.1.changedAt < x.1.changedAt
              · simp only [pickLater, if_pos hx] at hm
                refine Or.inr ?_
                rw [← Option.some.inj hm]
                exact List.mem_cons_self _ _
              · simp only [pickLater, if_neg hx] at hm
                exact Or.inl hm
        · exact Or.inr (List.mem_cons_of_mem _ hm)
      · intro y hy
        rcases List.mem_cons.mp hy with h1 | h1
        · rw [h1]; exact hxle
        · exact hall y h1
      · intro a ha
        cases acc with
        | none => exact Option.noConfusion ha
        | some b =>
            have hba : b = a := Option.some.inj ha
            subst hba
            by_cases hx : b.1.changedAt < x.1.changedAt
            · exact le_trans (le_of_lt hx) (hacc x (by simp [pickLater, hx]))
            · exact hacc b (by simp [pickLater, hx])

/-- Counterexample input for claim C8: a single REJECTED → APPROVED
transition (day 12) on a record of concept 5 dated day 10. -/
def c8Hist : List HistoryRow :=
  [⟨1, some Status.rejected, Status.approved, 12, none⟩]

/-- The corresponding Physical record for the C8 counterexample. -/
def c8Phys : List PhysicalRec :=
  [⟨1, 5, 20, 10, Status.approved, ""⟩]

/-- Claim C8 counterexample: the code's approval_info only filters
`new_status = APPROVED`, so a REJECTED → APPROVED row is surfaced
(submission day 10, approval day 12, 2 days), while the claim's rule
(previous_status = PENDING required) yields no approval_info at all. -/
theorem c8_approval_info_counterexample :
    approvalInfoCode c8Hist c8Phys 5 1 20 = some ⟨10, 12, 2⟩ ∧
    approvalInfoClaim c8Hist c8Phys 5 1 20 = none := by decide

/-- Claim C8 amended: the approval_info surfaced for a concept is derived
from the most recent history row with new_status APPROVED (any previous
status) among in-range records — it reports that record's submission date,
the approval date, and their difference in days, and the chosen row has the
maximal change time among qualifying rows; for concepts without an
executed-volume entry the detail's approval_info is null. -/
theorem c8_approval_info_amended (hist : List HistoryRow) (phys : List PhysicalRec)
    (cid : Nat) (ps pe : ℤ) (i : ApprovalInfo)
    (hsome : approvalInfoCode hist phys cid ps pe = some i) :
    (∃ hp ∈ approvalRowsFor hist phys cid ps pe,
      i = ⟨hp.2.date, hp.1.changedAt, hp.1.changedAt - hp.2.date⟩ ∧
      ∀ x ∈ approvalRowsFor hist phys cid ps pe,
        x.1.changedAt ≤ hp.1.changedAt) ∧
    (∀ (execm : List (Nat × ℚ)) (cid' : Nat),
      execm.any (fun p => p.1 == cid') = false →
      detailApprovalInfo hist phys execm cid' ps pe = none) := by
  constructor
  · simp only [approvalInfoCode] at hsome
    cases hl : latestBy (approvalRowsFor hist phys cid ps pe) with
    | none => rw [hl] at hsome; exact Option.noConfusion hsome
    | some hp =>
        rw [hl] at hsome
        obtain ⟨hmem, hall, _⟩ := foldl_pickLater_spec _ none hp hl
        refine ⟨hp, ?_, ?_, hall⟩
        · rcases hmem with hc | hc
          · exact Option.noConfusion hc
          · exact hc
        · exact (Option.some.inj hsome).symm
  · intro execm cid' hne
    simp [detailApprovalInfo, hne]

/-- Witness for C8: on the concrete single-row input the surfaced info is
(submission day 10, approval day 12, 2 days) and it satisfies the amended
characterization. -/
theorem c8_approval_info_amended_witness :
    approvalInfoCode c8Hist c8Phys 5 1 20 = some ⟨10, 12, 2⟩ ∧
    (∃ hp ∈ approvalRowsFor c8Hist c8Phys 5 1 20,
      (⟨10, 12, 2⟩ : ApprovalInfo)
          = ⟨hp.2.date, hp.1.changedAt, hp.1.changedAt - hp.2.date⟩ ∧
      ∀ x ∈ approvalRowsFor c8Hist c8Phys 5 1 20,
        x.1.changedAt ≤ hp.1.changedAt) := by
  have hsome : approvalInfoCode c8Hist c8Phys 5 1 20 = some ⟨10, 12, 2⟩ := by decide
  exact ⟨hsome, (c8_approval_info_amended c8Hist c8Phys 5 1 20 ⟨10, 12, 2⟩ hsome).1⟩
